import Mathlib

/-!
Verification development for the OSINT link-catalog CLI (olc.py).

Python strings are modeled as values of type List Char; character-level
functions (lowercasing, whitespace) follow the ASCII behaviour, which is
what every string appearing in the program's control flow exercises.
The library function urllib.parse.urlparse is modeled by its documented
splitting behaviour (scheme, netloc, path, params, query, fragment).
-/

namespace OLC

/-- The characters at which urlparse stops collecting the netloc. -/
def isUrlSep (c : Char) : Bool := c = '/' || c = '?' || c = '#'

/-- Characters allowed after the first character of a URL scheme
(ASCII letters, digits, plus, minus, dot), as in urllib.parse. -/
def schemeChar (c : Char) : Bool := c.isAlphanum || c = '+' || c = '-' || c = '.'

/-- A non-empty candidate scheme: ASCII letter first, scheme characters after. -/
def validScheme (l : List Char) : Bool :=
  match l with
  | [] => false
  | c :: rest => c.isAlpha && rest.all schemeChar

/-- Split a leading scheme from a URL, as urlparse does: the text before the
first colon, when it is a valid scheme name, lowercased; otherwise no scheme. -/
def splitScheme (url : List Char) : List Char × List Char :=
  let before := url.takeWhile (· ≠ ':')
  let rest := url.dropWhile (· ≠ ':')
  if rest ≠ [] ∧ validScheme before = true then (before.map Char.toLower, rest.tail)
  else ([], url)

/-- Split the netloc: when the remainder starts with two slashes, the netloc is
everything up to the first of '/', '?', '#'. -/
def splitNetloc (url : List Char) : List Char × List Char :=
  if url.take 2 = ['/', '/'] then
    ((url.drop 2).takeWhile (fun c => !isUrlSep c), (url.drop 2).dropWhile (fun c => !isUrlSep c))
  else ([], url)

/-- Split off the fragment at the first '#', when present. -/
def splitFragment (url : List Char) : List Char × List Char :=
  if '#' ∈ url then (url.takeWhile (· ≠ '#'), (url.dropWhile (· ≠ '#')).tail)
  else (url, [])

/-- Split off the query at the first '?', when present. -/
def splitQuery (url : List Char) : List Char × List Char :=
  if '?' ∈ url then (url.takeWhile (· ≠ '?'), (url.dropWhile (· ≠ '?')).tail)
  else (url, [])

/-- Split a path into everything up to and including its last '/', and the
final segment after it.  With no '/', the first component is empty. -/
def splitAtLastSlash (l : List Char) : List Char × List Char :=
  ((l.reverse.dropWhile (· ≠ '/')).reverse, (l.reverse.takeWhile (· ≠ '/')).reverse)

/-- urlparse's parameter split on a path: the first ';' inside the last path
segment separates path from params (callers invoke this only when the path
contains a ';'). -/
def splitParams (l : List Char) : List Char × List Char :=
  if '/' ∈ l then
    let pre := (splitAtLastSlash l).1
    let seg := (splitAtLastSlash l).2
    if ';' ∈ seg then (pre ++ seg.takeWhile (· ≠ ';'), (seg.dropWhile (· ≠ ';')).tail)
    else (l, [])
  else (l.takeWhile (· ≠ ';'), (l.dropWhile (· ≠ ';')).tail)

/-- The schemes for which urlparse separates params from the path. -/
def usesParams : List (List Char) :=
  ["", "ftp", "hdl", "prospero", "http", "imap", "https", "shttp", "rtsp",
   "rtsps", "rtspu", "sip", "sips", "snews", "tel", "telnet", "sftp"].map String.toList

/-- The six components urlparse returns. -/
structure UrlParts where
  scheme : List Char
  netloc : List Char
  path : List Char
  params : List Char
  query : List Char
  fragment : List Char
deriving DecidableEq

/-- Model of urllib.parse.urlparse: scheme, then netloc after two slashes,
then fragment at the first '#', query at the first '?', and params split
from the last path segment for the schemes that use them. -/
def urlparse (url : List Char) : UrlParts :=
  let s := splitScheme url
  let n := splitNetloc s.2
  let f := splitFragment n.2
  let q := splitQuery f.1
  let pr := if s.1 ∈ usesParams ∧ ';' ∈ q.1 then splitParams q.1 else (q.1, [])
  ⟨s.1, n.1, pr.1, pr.2, q.2, f.2⟩

/-- The literal character list of the prefix http with colon and slashes. -/
def schemeHttp : List Char := "http://".toList

/-- The literal character list of the prefix https with colon and slashes. -/
def schemeHttps : List Char := "https://".toList

/-- Model of the check re.match of https? with colon and two slashes. -/
def hasHttpScheme (s : List Char) : Bool :=
  schemeHttp.isPrefixOf s || schemeHttps.isPrefixOf s

/-- normalize_url from olc.py: prepend the https prefix when the input does not
start with an http or https scheme; when the parse then has no netloc, rewrap
the parsed path under the https prefix. -/
def normalize_url (s : List Char) : List Char :=
  let s1 := if hasHttpScheme s then s else schemeHttps ++ s
  let p := urlparse s1
  if p.netloc = [] then schemeHttps ++ p.path else s1

/-- extract_domain from olc.py: the netloc when non-empty, otherwise the first
'/'-separated segment of the path. -/
def extract_domain (url : List Char) : List Char :=
  let p := urlparse url
  if p.netloc ≠ [] then p.netloc else p.path.takeWhile (· ≠ '/')

/-- The path urlparse computes from what remains after the netloc, for a
scheme that uses params: drop fragment, drop query, split params. -/
def pathCore (r : List Char) : List Char :=
  let f := (splitFragment r).1
  let q := (splitQuery f).1
  if ';' ∈ q then (splitParams q).1 else q

/-- Remove a leading http or https scheme from a string, when present;
statement vocabulary for the amended idempotence claim. -/
def stripHttp (s : List Char) : List Char :=
  if schemeHttps.isPrefixOf s then s.drop 8
  else if schemeHttp.isPrefixOf s then s.drop 7 else s

/-! ## Python string and number helpers -/

/-- ASCII model of Python str.lower. -/
def pyLower (l : List Char) : List Char := l.map Char.toLower

/-- The whitespace characters Python str.strip removes (ASCII model). -/
def pyIsSpace (c : Char) : Bool :=
  c = ' ' || c = '\t' || c = '\n' || c = '\x0d' || c = '\x0b' || c = '\x0c'

/-- Model of Python str.strip with no argument. -/
def pyStrip (l : List Char) : List Char :=
  ((l.dropWhile pyIsSpace).reverse.dropWhile pyIsSpace).reverse

/-- Model of Python str.split with an explicit one-character separator:
"a,b" gives ["a","b"], "" gives [""], "a," gives ["a",""]. -/
def pySplit (sep : Char) : List Char → List (List Char)
  | [] => [[]]
  | c :: rest =>
    if c = sep then [] :: pySplit sep rest
    else
      match pySplit sep rest with
      | g :: gs => (c :: g) :: gs
      | [] => [[c]]

/-- Model of Python str.join with a one-character separator. -/
def pyJoin (sep : Char) (xs : List (List Char)) : List Char :=
  List.intercalate [sep] xs

/-- Model of Python str(b) for a bool: capitalized True and False. -/
def pyStrBool (b : Bool) : List Char :=
  if b then "True".toList else "False".toList

/-- Model of the Python substring test, needle in hay. -/
def pyIn (needle : List Char) : List Char → Bool
  | [] => needle.isEmpty
  | c :: rest => needle.isPrefixOf (c :: rest) || pyIn needle rest

/-- A run of decimal digits possibly containing single underscores between
digits (Python numeric literal grammar): returns the digits with underscores
removed and the unconsumed remainder. -/
def takeDigitsU : List Char → List Char × List Char
  | [] => ([], [])
  | [c] => if c.isDigit then ([c], []) else ([], [c])
  | c :: c2 :: rest =>
    if c.isDigit then
      if c2 = '_' then
        match rest with
        | d :: _ =>
          if d.isDigit then
            let r := takeDigitsU rest
            (c :: r.1, r.2)
          else ([c], c2 :: rest)
        | [] => ([c], c2 :: rest)
      else
        let r := takeDigitsU (c2 :: rest)
        (c :: r.1, r.2)
    else ([], c :: c2 :: rest)

/-- Numeric value of a digit run. -/
def digitsVal (l : List Char) : Nat :=
  l.foldl (fun n c => n * 10 + (c.toNat - 48)) 0

/-- The values Python float can produce, with infinities and nan kept
symbolic so that no floating-point arithmetic is modeled. -/
inductive PyFloat where
  | finite (q : Rat)
  | posInf
  | negInf
  | nan
deriving DecidableEq

/-- Rational value of mantissa digits with a decimal exponent. -/
def decValue (intPart fracPart : List Char) (exp : Int) : Rat :=
  let m : Rat := ((digitsVal (intPart ++ fracPart) : Int) : Rat)
  let e : Int := exp - (fracPart.length : Int)
  if 0 ≤ e then m * ((10 : Rat) ^ e.toNat) else m / ((10 : Rat) ^ (-e).toNat)

/-- Parse an optional exponent marker with optionally signed digits; returns
the exponent and the remainder, or fails when an exponent marker is not
followed by digits. -/
def parseExp (l : List Char) : Option (Int × List Char) :=
  match l with
  | 'e' :: rest | 'E' :: rest =>
    let signed : Int × List Char :=
      match rest with
      | '+' :: r2 => (1, r2)
      | '-' :: r2 => (-1, r2)
      | _ => (1, rest)
    let d := takeDigitsU signed.2
    if d.1 = [] then none else some (signed.1 * (digitsVal d.1 : Int), d.2)
  | _ => some (0, l)

/-- Model of the Python float builtin on a string: optional surrounding
whitespace and sign, then inf, infinity, nan (case-insensitive) or a decimal
literal with optional fraction and exponent.  none models ValueError. -/
def pyFloat? (s : List Char) : Option PyFloat :=
  let t := pyStrip s
  let signed : Bool × List Char :=
    match t with
    | '+' :: r => (false, r)
    | '-' :: r => (true, r)
    | _ => (false, t)
  let neg := signed.1
  let body := pyLower signed.2
  if body = "inf".toList ∨ body = "infinity".toList then
    some (if neg then PyFloat.negInf else PyFloat.posInf)
  else if body = "nan".toList then some PyFloat.nan
  else
    let ip := takeDigitsU body
    match ip.2 with
    | '.' :: afterDot =>
      let fp := takeDigitsU afterDot
      if ip.1 = [] ∧ fp.1 = [] then none
      else
        match parseExp fp.2 with
        | some (e, []) => some (.finite ((if neg then -1 else 1) * decValue ip.1 fp.1 e))
        | _ => none
    | _ =>
      if ip.1 = [] then none
      else
        match parseExp ip.2 with
        | some (e, []) => some (.finite ((if neg then -1 else 1) * decValue ip.1 [] e))
        | _ => none

/-- Model of the Python int builtin on a string (base 10): optional
surrounding whitespace and sign, then digits.  none models ValueError. -/
def pyInt? (s : List Char) : Option Int :=
  let t := pyStrip s
  let signed : Bool × List Char :=
    match t with
    | '+' :: r => (false, r)
    | '-' :: r => (true, r)
    | _ => (false, t)
  let d := takeDigitsU signed.2
  if d.1 = [] ∨ d.2 ≠ [] then none
  else some ((if signed.1 then -1 else 1) * (digitsVal d.1 : Int))

/-! ## The catalog data model -/

/-- The metrics sub-record of an entry. -/
structure Metrics where
  rating : PyFloat
  rating_count : Int
deriving DecidableEq

/-- One cataloged resource, with the full schema the add operation writes. -/
structure Entry where
  link : List Char
  name : List Char
  description : List Char
  type : List Char
  subtypes : List (List Char)
  tags : List (List Char)
  roles : List (List Char)
  language : List Char
  cost : List Char
  requires_account : Bool
  data_types : List (List Char)
  api_available : Bool
  metrics : Metrics
  date_collected : List Char
  date_updated : List Char
deriving DecidableEq

/-- Python truthiness of an optional string argument: absent or empty is falsy. -/
def truthyS (a : Option (List Char)) : Bool :=
  match a with
  | none => false
  | some s => !s.isEmpty

/-- Python truthiness of an optional list argument: absent or empty is falsy. -/
def truthyL (a : Option (List (List Char))) : Bool :=
  match a with
  | none => false
  | some l => !l.isEmpty

/-- Python x or d on an optional string argument. -/
def orDefaultS (a : Option (List Char)) (d : List Char) : List Char :=
  if truthyS a then a.getD [] else d

/-- The optional arguments the add subcommand accepts. -/
structure AddArgs where
  link : Option (List Char)
  name : Option (List Char)
  desc : Option (List Char)
  type : Option (List Char)
  sub : Option (List (List Char))
  tags : Option (List Char)
  roles : Option (List Char)
  lang : Option (List Char)
  cost : Option (List Char)
  account : Option (List Char)
  data_types : Option (List Char)
  api : Option (List Char)
  rating : Option (List Char)
  rating_count : Option (List Char)

/-- The structured response the code extracts from the external classifier,
typed with the shape the add operation reads out of the returned JSON
(string fields via get with string defaults, list fields joined by commas,
booleans passed through str).  rating is the decimal string the code builds
with str from the metrics object. -/
structure AIResult where
  name : List Char
  description : List Char
  type : List Char
  subtypes : List (List Char)
  tags : List (List Char)
  roles : List (List Char)
  language : List Char
  cost : List Char
  requires_account : Bool
  data_types : List (List Char)
  api_available : Bool
  rating : List Char

/-- The in-place overwrite of the argparse namespace that add performs after
a successful classifier call. -/
def backfill (a : AddArgs) (r : AIResult) : AddArgs :=
  { a with
    name := some r.name
    desc := some r.description
    type := some r.type
    sub := some r.subtypes
    tags := some (pyJoin ',' r.tags)
    roles := some (pyJoin ',' r.roles)
    lang := some r.language
    cost := some r.cost
    account := some (pyStrBool r.requires_account)
    data_types := some (pyJoin ',' r.data_types)
    api := some (pyStrBool r.api_available)
    rating := some r.rating }

/-- The classifier step of add: merge a successful response into the
arguments, keep them unchanged when the call failed. -/
def backfillOpt (args : AddArgs) (ai : Option AIResult) : AddArgs :=
  match ai with
  | some r => backfill args r
  | none => args

/-- Outcome of the add operation. -/
inductive AddStatus where
  | ok
  | missingInput
  | duplicate
  | convError
deriving DecidableEq

/-- Result of the add operation: its status, the in-memory catalog it holds
at return, and whether save_data was called on it. -/
structure AddResult where
  status : AddStatus
  data : List Entry
  saved : Bool
deriving DecidableEq

/-- add from olc.py, with its effects made explicit: stdin is the piped
standard-input text (none when the descriptor is a terminal), ai the
classifier response (none when the call fails), nowC and nowU the two
datetime.now() readings for date_collected and date_updated.  convError
models the ValueError float or int raise on a malformed numeric argument,
which aborts before the append and the save. -/
def add (data : List Entry) (args : AddArgs) (stdin : Option (List Char))
    (ai : Option AIResult) (nowC nowU : List Char) : AddResult :=
  let link0 : Option (List Char) :=
    if !truthyS args.link then
      match stdin with
      | some s => some (pyStrip s)
      | none => args.link
    else args.link
  if truthyS link0 = false then ⟨.missingInput, data, false⟩
  else
    let normalized := normalize_url (link0.getD [])
    let domain := extract_domain normalized
    if data.any (fun e => extract_domain e.link == domain) then ⟨.duplicate, data, false⟩
    else
      let a :=
        if truthyS link0 ∧ truthyS args.name = false ∧ truthyS args.desc = false ∧
            truthyS args.type = false then backfillOpt args ai
        else args
      let ratingv : Option PyFloat :=
        if truthyS a.rating then pyFloat? (a.rating.getD []) else some (.finite 0)
      let countv : Option Int :=
        if truthyS a.rating_count then pyInt? (a.rating_count.getD []) else some 0
      match ratingv, countv with
      | some rv, some cv =>
        let entry : Entry :=
          { link := normalized
            name := orDefaultS a.name domain
            description := orDefaultS a.desc ("Website for ".toList ++ domain)
            type := orDefaultS a.type "website".toList
            subtypes := if truthyL a.sub then a.sub.getD [] else []
            tags := if truthyS a.tags then pySplit ',' (a.tags.getD []) else []
            roles := if truthyS a.roles then pySplit ',' (a.roles.getD []) else []
            language := orDefaultS a.lang "en".toList
            cost := orDefaultS a.cost "free".toList
            requires_account :=
              if truthyS a.account then pyLower (a.account.getD []) == "true".toList else false
            data_types := if truthyS a.data_types then pySplit ',' (a.data_types.getD []) else []
            api_available :=
              if truthyS a.api then pyLower (a.api.getD []) == "true".toList else false
            metrics := ⟨rv, cv⟩
            date_collected := nowC
            date_updated := nowU }
        ⟨.ok, data ++ [entry], true⟩
      | _, _ => ⟨.convError, data, false⟩

/-- The optional arguments the edit subcommand accepts (no data_types). -/
structure EditArgs where
  link : List Char
  name : Option (List Char)
  desc : Option (List Char)
  type : Option (List Char)
  sub : Option (List (List Char))
  tags : Option (List Char)
  roles : Option (List Char)
  rating : Option (List Char)
  rating_count : Option (List Char)
  cost : Option (List Char)
  lang : Option (List Char)
  account : Option (List Char)
  api : Option (List Char)

/-- The per-entry update edit performs on the matched entry: each truthy
argument overwrites its field, date_updated is refreshed; none models the
ValueError raise of float or int on a malformed numeric argument. -/
def applyEdit (e : Entry) (a : EditArgs) (now : List Char) : Option Entry :=
  let ratingv : Option PyFloat :=
    if truthyS a.rating then pyFloat? (a.rating.getD []) else some e.metrics.rating
  let countv : Option Int :=
    if truthyS a.rating_count then pyInt? (a.rating_count.getD []) else some e.metrics.rating_count
  match ratingv, countv with
  | some rv, some cv =>
    some { e with
      name := if truthyS a.name then a.name.getD [] else e.name
      description := if truthyS a.desc then a.desc.getD [] else e.description
      type := if truthyS a.type then a.type.getD [] else e.type
      subtypes := if truthyL a.sub then a.sub.getD [] else e.subtypes
      tags := if truthyS a.tags then pySplit ',' (a.tags.getD []) else e.tags
      roles := if truthyS a.roles then pySplit ',' (a.roles.getD []) else e.roles
      cost := if truthyS a.cost then a.cost.getD [] else e.cost
      language := if truthyS a.lang then a.lang.getD [] else e.language
      requires_account :=
        if truthyS a.account then pyLower (a.account.getD []) == "true".toList
        else e.requires_account
      api_available :=
        if truthyS a.api then pyLower (a.api.getD []) == "true".toList else e.api_available
      metrics := ⟨rv, cv⟩
      date_updated := now }
  | _, _ => none

/-- Outcome of the edit operation. -/
inductive EditStatus where
  | ok
  | notFound
  | convError
deriving DecidableEq

/-- Result of the edit operation, as for add. -/
structure EditResult where
  status : EditStatus
  data : List Entry
  saved : Bool
deriving DecidableEq

/-- The loop of edit: walk the catalog, update the first entry whose domain
matches, keep everything after it untouched; notFound when the loop falls
through, convError when the numeric conversion raises on the matched entry. -/
def editGo (d : List Char) (a : EditArgs) (now : List Char) : List Entry → EditResult
  | [] => ⟨.notFound, [], false⟩
  | e :: rest =>
    if extract_domain e.link == d then
      match applyEdit e a now with
      | some e2 => ⟨.ok, e2 :: rest, true⟩
      | none => ⟨.convError, e :: rest, false⟩
    else
      let r := editGo d a now rest
      ⟨r.status, e :: r.data, r.saved⟩

/-- edit from olc.py: resolve the target domain from the link argument, then
update the first matching entry and persist; on failure nothing is saved and
the stored catalog is unchanged. -/
def edit (data : List Entry) (a : EditArgs) (now : List Char) : EditResult :=
  let d := extract_domain (normalize_url a.link)
  let r := editGo d a now data
  if r.status = .ok then r else ⟨r.status, data, false⟩

/-- Outcome of the rm operation. -/
inductive RmStatus where
  | ok
  | missingInput
  | notFound
deriving DecidableEq

/-- Result of the rm operation, as for add. -/
structure RmResult where
  status : RmStatus
  data : List Entry
  saved : Bool
deriving DecidableEq

/-- rm from olc.py: keep the entries whose domain differs from the target;
when the lengths agree nothing matched and nothing is saved. -/
def rm (data : List Entry) (link : Option (List Char)) (stdin : Option (List Char)) : RmResult :=
  let link0 : Option (List Char) :=
    if !truthyS link then
      match stdin with
      | some s => some (pyStrip s)
      | none => link
    else link
  if truthyS link0 = false then ⟨.missingInput, data, false⟩
  else
    let d := extract_domain (normalize_url (link0.getD []))
    let newData := data.filter (fun e => !(extract_domain e.link == d))
    if newData.length = data.length then ⟨.notFound, data, false⟩
    else ⟨.ok, newData, true⟩

/-- view_details from olc.py: the first entry whose domain matches the
normalized link argument; none models the not-found report. -/
def view_details (data : List Entry) (link : List Char) : Option Entry :=
  let d := extract_domain (normalize_url link)
  data.find? (fun e => extract_domain e.link == d)

/-- The eight-way case-insensitive substring test of find, in source order:
name, link, domain, description, type, joined subtypes, tags and roles. -/
def matchesEntry (kw : List Char) (e : Entry) : Bool :=
  pyIn kw (pyLower e.name) ||
  pyIn kw (pyLower e.link) ||
  pyIn kw (pyLower (extract_domain e.link)) ||
  pyIn kw (pyLower e.description) ||
  pyIn kw (pyLower e.type) ||
  pyIn kw (pyLower (pyJoin ' ' e.subtypes)) ||
  pyIn kw (pyLower (pyJoin ' ' e.tags)) ||
  pyIn kw (pyLower (pyJoin ' ' e.roles))

/-- find from olc.py: the entries matching the lowercased query, in catalog
order; the empty result is reported as a status, never an error, which is
visible here in the total return type. -/
def find (data : List Entry) (query : List Char) : List Entry :=
  data.filter (matchesEntry (pyLower query))

/-! ## The JSON storage layer

The catalog file holds arbitrary JSON, so the storage functions are modeled
over a JSON value type.  Numbers keep their literal text: Python's float
repr round-trips every float it prints, which the literal representation
mirrors without modeling binary floating point. -/

/-- A JSON value.  Object members keep insertion order, as Python dicts do. -/
inductive Json where
  | null
  | bool (b : Bool)
  | num (lit : List Char)
  | str (s : List Char)
  | arr (elems : List Json)
  | obj (members : List (List Char × Json))

/-- Lowercase hexadecimal digit of a value below 16. -/
def hexDigit (n : Nat) : Char :=
  if n < 10 then Char.ofNat (48 + n) else Char.ofNat (87 + n)

/-- The escaping json.dump applies inside string literals with
ensure_ascii False: quote, backslash, the short control escapes, and
a four-digit unicode escape for the other control characters. -/
def escapeChar (c : Char) : List Char :=
  if c = '"' then ['\\', '"']
  else if c = '\\' then ['\\', '\\']
  else if c = '\x08' then ['\\', 'b']
  else if c = '\x0c' then ['\\', 'f']
  else if c = '\n' then ['\\', 'n']
  else if c = '\x0d' then ['\\', 'r']
  else if c = '\t' then ['\\', 't']
  else if c.toNat < 32 then ['\\', 'u', '0', '0', hexDigit (c.toNat / 16), hexDigit (c.toNat % 16)]
  else [c]

/-- A JSON string literal as json.dump writes it. -/
def encodeString (s : List Char) : List Char :=
  '"' :: (s.map escapeChar).flatten ++ ['"']

/-- Newline plus the two-space-per-level indentation json.dump emits. -/
def newlineIndent (lvl : Nat) : List Char :=
  '\n' :: List.replicate (2 * lvl) ' '

mutual

/-- json.dump with indent 2 and ensure_ascii False, at a nesting level. -/
def dumpJson : Nat → Json → List Char
  | _, .null => "null".toList
  | _, .bool true => "true".toList
  | _, .bool false => "false".toList
  | _, .num lit => lit
  | _, .str s => encodeString s
  | _, .arr [] => "[]".toList
  | lvl, .arr (e :: es) =>
    '[' :: (newlineIndent (lvl + 1) ++ dumpJson (lvl + 1) e ++ dumpArrRest (lvl + 1) es ++
      newlineIndent lvl ++ [']'])
  | _, .obj [] => "{}".toList
  | lvl, .obj (p :: ps) =>
    '{' :: (newlineIndent (lvl + 1) ++ dumpMember (lvl + 1) p ++ dumpObjRest (lvl + 1) ps ++
      newlineIndent lvl ++ ['}'])

/-- One object member, key colon space value. -/
def dumpMember : Nat → List Char × Json → List Char
  | lvl, (k, v) => encodeString k ++ ':' :: ' ' :: dumpJson lvl v

/-- The remaining array items, each preceded by a comma and fresh line. -/
def dumpArrRest : Nat → List Json → List Char
  | _, [] => []
  | lvl, e :: es => ',' :: (newlineIndent lvl ++ dumpJson lvl e ++ dumpArrRest lvl es)

/-- The remaining object members, each preceded by a comma and fresh line. -/
def dumpObjRest : Nat → List (List Char × Json) → List Char
  | _, [] => []
  | lvl, p :: ps => ',' :: (newlineIndent lvl ++ dumpMember lvl p ++ dumpObjRest lvl ps)

end

/-- save_data from olc.py: the pretty-printed catalog plus a final newline. -/
def save_data (v : Json) : List Char :=
  dumpJson 0 v ++ ['\n']

/-- The scan of the regex substitution of load_data, with fuel bounding the
number of characters still to be scanned (one unit per character, so the
input length is always enough): each comma followed by optional whitespace
and a closing brace or bracket loses the comma and the whitespace, scanning
left to right without overlap. -/
def stripCommasGo : Nat → List Char → List Char
  | _, [] => []
  | 0, l => l
  | fuel + 1, c :: rest =>
    if c = ',' then
      match rest.dropWhile pyIsSpace with
      | b :: r2 =>
        if b = '}' ∨ b = ']' then b :: stripCommasGo fuel r2
        else ',' :: stripCommasGo fuel rest
      | [] => ',' :: stripCommasGo fuel rest
    else c :: stripCommasGo fuel rest

/-- The regex substitution of load_data. -/
def stripTrailingCommas (l : List Char) : List Char := stripCommasGo l.length l

/-- The whitespace characters the JSON decoder skips between tokens. -/
def jsonWs (c : Char) : Bool :=
  c = ' ' || c = '\t' || c = '\n' || c = '\x0d'

/-- Skip JSON inter-token whitespace. -/
def skipWs (l : List Char) : List Char := l.dropWhile jsonWs

/-- Value of a hexadecimal digit. -/
def hexVal? (c : Char) : Option Nat :=
  if '0' ≤ c ∧ c ≤ '9' then some (c.toNat - 48)
  else if 'a' ≤ c ∧ c ≤ 'f' then some (c.toNat - 87)
  else if 'A' ≤ c ∧ c ≤ 'F' then some (c.toNat - 55)
  else none

/-- Parse the four hex digits of a unicode escape. -/
def hex4? (l : List Char) : Option Nat :=
  match l with
  | [a, b, c, d] =>
    match hexVal? a, hexVal? b, hexVal? c, hexVal? d with
    | some x, some y, some z, some w => some (((x * 16 + y) * 16 + z) * 16 + w)
    | _, _, _, _ => none
  | _ => none

/-- Parse the body of a JSON string literal after its opening quote, with
the escapes json.loads accepts; unescaped control characters are rejected
as in strict mode.  Unicode escapes must form scalar values, surrogate
pairs included (the model has no lone surrogates, since characters are
unicode scalar values). -/
def parseStringRest : List Char → Option (List Char × List Char)
  | [] => none
  | c :: rest =>
    if c = '"' then some ([], rest)
    else if c = '\\' then
      match rest with
      | [] => none
      | e :: r2 =>
        if e = '"' then (parseStringRest r2).map (fun p => ('"' :: p.1, p.2))
        else if e = '\\' then (parseStringRest r2).map (fun p => ('\\' :: p.1, p.2))
        else if e = '/' then (parseStringRest r2).map (fun p => ('/' :: p.1, p.2))
        else if e = 'b' then (parseStringRest r2).map (fun p => ('\x08' :: p.1, p.2))
        else if e = 'f' then (parseStringRest r2).map (fun p => ('\x0c' :: p.1, p.2))
        else if e = 'n' then (parseStringRest r2).map (fun p => ('\n' :: p.1, p.2))
        else if e = 'r' then (parseStringRest r2).map (fun p => ('\x0d' :: p.1, p.2))
        else if e = 't' then (parseStringRest r2).map (fun p => ('\t' :: p.1, p.2))
        else if e = 'u' then
          match r2 with
          | h1 :: h2 :: h3 :: h4 :: r3 =>
            match hex4? [h1, h2, h3, h4] with
            | none => none
            | some n =>
              if h : n < 0xd800 ∨ 0xdfff < n ∧ n < 0x110000 then
                (parseStringRest r3).map
                  (fun p => (Char.ofNatAux n (by simpa [Nat.isValidChar] using h) :: p.1, p.2))
              else if hs : 0xd800 ≤ n ∧ n ≤ 0xdbff then
                match r3 with
                | '\\' :: 'u' :: g1 :: g2 :: g3 :: g4 :: r5 =>
                  match hex4? [g1, g2, g3, g4] with
                  | some m =>
                    if hm : 0xdc00 ≤ m ∧ m ≤ 0xdfff then
                      let code := 0x10000 + (n - 0xd800) * 0x400 + (m - 0xdc00)
                      (parseStringRest r5).map
                        (fun p => (Char.ofNatAux code
                          (by simp [Nat.isValidChar]; omega) :: p.1, p.2))
                    else none
                  | none => none
                | _ => none
              else none
          | _ => none
        else none
    else if c.toNat < 32 then none
    else (parseStringRest rest).map (fun p => (c :: p.1, p.2))

/-- A contiguous digit run with no underscores (JSON is stricter than
Python's float here). -/
def takeDigits (l : List Char) : List Char × List Char :=
  (l.takeWhile Char.isDigit, l.dropWhile Char.isDigit)

/-- The exponent of a JSON number after its marker, appended to the
literal already read. -/
def parseNumExp (lit2 : List Char) (marker : Char) (r : List Char) :
    Option (List Char × List Char) :=
  let sgn : List Char × List Char :=
    match r with
    | '+' :: r2 => (['+'], r2)
    | '-' :: r2 => (['-'], r2)
    | _ => ([], r)
  let d := takeDigits sgn.2
  if d.1 = [] then none else some (lit2 ++ marker :: sgn.1 ++ d.1, d.2)

/-- The fraction and exponent of a JSON number, appended to the integer
literal already read. -/
def parseNumberTail (intLit : List Char) (l : List Char) : Option (List Char × List Char) :=
  let frac : Option (List Char × List Char) :=
    match l with
    | '.' :: r =>
      let d := takeDigits r
      if d.1 = [] then none else some (intLit ++ '.' :: d.1, d.2)
    | _ => some (intLit, l)
  match frac with
  | none => none
  | some (lit2, rest2) =>
    match rest2 with
    | 'e' :: r => parseNumExp lit2 'e' r
    | 'E' :: r => parseNumExp lit2 'E' r
    | _ => some (lit2, rest2)

/-- Parse a JSON number token, returning its literal text: optional minus,
an integer part without leading zeros, optional fraction, optional
exponent. -/
def parseNumber (l : List Char) : Option (List Char × List Char) :=
  let sgn : List Char × List Char :=
    match l with
    | '-' :: r => (['-'], r)
    | _ => ([], l)
  match sgn.2 with
  | [] => none
  | c :: r1 =>
    if c = '0' then
      parseNumberTail (sgn.1 ++ [c]) r1
    else if c.isDigit then
      let d := takeDigits r1
      parseNumberTail (sgn.1 ++ c :: d.1) d.2
    else none

/-- Insert one parsed member into an object being built, with Python dict
semantics: an existing key keeps its position and takes the new value. -/
def insertMember (acc : List (List Char × Json)) (p : List Char × Json) :
    List (List Char × Json) :=
  if acc.any (fun q => q.1 == p.1) then
    acc.map (fun q => if q.1 == p.1 then (q.1, p.2) else q)
  else acc ++ [p]

/-- Fold parsed members into Python dict order-and-override semantics. -/
def dedupMembers (ps : List (List Char × Json)) : List (List Char × Json) :=
  ps.foldl insertMember []

mutual

/-- Parse one JSON value at the given position (whitespace already
skipped), with fuel bounding the nesting depth.  Follows json.loads:
strings, objects, arrays, the three keyword literals, numbers, and the
NaN and Infinity constants. -/
def parseJson : Nat → List Char → Option (Json × List Char)
  | 0, _ => none
  | fuel + 1, l =>
    match l with
    | '"' :: r => (parseStringRest r).map (fun p => (.str p.1, p.2))
    | '{' :: r =>
      (match skipWs r with
       | '}' :: r2 => some (.obj [], r2)
       | l2 => (parseMembers fuel l2).map (fun p => (.obj (dedupMembers p.1), p.2)))
    | '[' :: r =>
      (match skipWs r with
       | ']' :: r2 => some (.arr [], r2)
       | l2 => (parseElems fuel l2).map (fun p => (.arr p.1, p.2)))
    | 'n' :: 'u' :: 'l' :: 'l' :: r => some (.null, r)
    | 't' :: 'r' :: 'u' :: 'e' :: r => some (.bool true, r)
    | 'f' :: 'a' :: 'l' :: 's' :: 'e' :: r => some (.bool false, r)
    | _ =>
      match parseNumber l with
      | some (lit, r) => some (.num lit, r)
      | none =>
        match l with
        | 'N' :: 'a' :: 'N' :: r => some (.num "NaN".toList, r)
        | 'I' :: 'n' :: 'f' :: 'i' :: 'n' :: 'i' :: 't' :: 'y' :: r =>
          some (.num "Infinity".toList, r)
        | '-' :: 'I' :: 'n' :: 'f' :: 'i' :: 'n' :: 'i' :: 't' :: 'y' :: r =>
          some (.num "-Infinity".toList, r)
        | _ => none

/-- Parse the non-empty member list of an object, starting at a key. -/
def parseMembers : Nat → List Char → Option (List (List Char × Json) × List Char)
  | 0, _ => none
  | fuel + 1, l =>
    match l with
    | '"' :: r =>
      match parseStringRest r with
      | none => none
      | some (k, r2) =>
        match skipWs r2 with
        | ':' :: r3 =>
          match parseJson fuel (skipWs r3) with
          | none => none
          | some (v, r4) =>
            match skipWs r4 with
            | ',' :: r5 => (parseMembers fuel (skipWs r5)).map (fun p => ((k, v) :: p.1, p.2))
            | '}' :: r5 => some ([(k, v)], r5)
            | _ => none
        | _ => none
    | _ => none

/-- Parse the non-empty element list of an array, starting at a value. -/
def parseElems : Nat → List Char → Option (List Json × List Char)
  | 0, _ => none
  | fuel + 1, l =>
    match parseJson fuel l with
    | none => none
    | some (v, r) =>
      match skipWs r with
      | ',' :: r2 => (parseElems fuel (skipWs r2)).map (fun p => (v :: p.1, p.2))
      | ']' :: r2 => some ([v], r2)
      | _ => none

end

/-- json.loads: skip whitespace, parse one value, require only whitespace
after it. -/
def loads (l : List Char) : Option Json :=
  match parseJson (l.length + 1) (skipWs l) with
  | some (v, r) => if skipWs r = [] then some v else none
  | none => none

/-- load_data from olc.py over the file content (none when the file does
not exist): missing, blank and unparseable content all give the empty
catalog, and the trailing-comma substitution runs before the parse. -/
def load_data (file : Option (List Char)) : Json :=
  match file with
  | none => .arr []
  | some content =>
    let c := pyStrip content
    if c = [] then .arr []
    else
      match loads (stripTrailingCommas c) with
      | some v => v
      | none => .arr []

/-! ## Concrete fixtures for witnesses and counterexamples -/

/-- A small entry with the given link and name and default fields. -/
def sampleEntry (lk nm : List Char) : Entry :=
  { link := lk, name := nm, description := "d".toList, type := "t".toList,
    subtypes := [], tags := [], roles := [], language := "en".toList,
    cost := "free".toList, requires_account := false, data_types := [],
    api_available := false, metrics := ⟨.finite 0, 0⟩,
    date_collected := "T0".toList, date_updated := "T0".toList }

/-- add arguments with every field absent. -/
def emptyAddArgs : AddArgs :=
  ⟨none, none, none, none, none, none, none, none, none, none, none, none, none, none⟩

/-- edit arguments with only the link set. -/
def emptyEditArgs (lk : List Char) : EditArgs :=
  ⟨lk, none, none, none, none, none, none, none, none, none, none, none, none⟩

/-- A classifier response used by the counterexamples: a complete structured
answer whose rating text parses and whose requires_account is true. -/
def aiSample : AIResult :=
  ⟨"An".toList, "Ad".toList, "At".toList, [], [], [], "en".toList, "free".toList,
    true, [], false, "4.0".toList⟩

/-- The catalog entry of the storage counterexample, as the JSON object the
file holds, with the full schema add writes; its description contains a
comma directly followed by a closing bracket. -/
def entryJsonBad : Json :=
  .obj [("link".toList, .str "https://a.com".toList),
    ("name".toList, .str "a".toList),
    ("description".toList, .str "a,]".toList),
    ("type".toList, .str "website".toList),
    ("subtypes".toList, .arr []),
    ("tags".toList, .arr []),
    ("roles".toList, .arr []),
    ("language".toList, .str "en".toList),
    ("cost".toList, .str "free".toList),
    ("requires_account".toList, .bool false),
    ("data_types".toList, .arr []),
    ("api_available".toList, .bool false),
    ("metrics".toList, .obj [("rating".toList, .num "0.0".toList),
      ("rating_count".toList, .num "0".toList)]),
    ("date_collected".toList, .str "2025-01-01T00:00:00".toList),
    ("date_updated".toList, .str "2025-01-01T00:00:00".toList)]

/-- The one-entry catalog whose description breaks the storage round trip. -/
def badCatalog : Json := .arr [entryJsonBad]

end OLC

namespace OLC

/- Generic list helpers. -/

theorem isPrefixOf_decomp {p : List Char} : ∀ {s : List Char}, p.isPrefixOf s = true → ∃ t, s = p ++ t := by
  induction p with
  | nil => exact fun h => ⟨_, rfl⟩
  | cons a p ih =>
    intro s h
    cases s with
    | nil => simp [List.isPrefixOf] at h
    | cons b s =>
      simp only [List.isPrefixOf, Bool.and_eq_true, beq_iff_eq] at h
      obtain ⟨rfl, h2⟩ := h
      obtain ⟨t, rfl⟩ := ih h2
      exact ⟨t, rfl⟩

theorem isPrefixOf_append (p t : List Char) : p.isPrefixOf (p ++ t) = true := by
  induction p with
  | nil => simp [List.isPrefixOf]
  | cons a p ih => simp [List.isPrefixOf, ih]

theorem mem_of_mem_takeWhile {p : Char → Bool} {l : List Char} {x : Char}
    (h : x ∈ l.takeWhile p) : x ∈ l := by
  have := List.takeWhile_append_dropWhile p l
  rw [← this]
  exact List.mem_append_left _ h

theorem not_mem_takeWhile_ne (c : Char) (l : List Char) : c ∉ l.takeWhile (· ≠ c) := by
  intro h
  have := List.mem_takeWhile_imp h
  simp at this

theorem dropWhile_eq_of_takeWhile_nil {p : Char → Bool} {l : List Char}
    (h : l.takeWhile p = []) : l.dropWhile p = l := by
  cases l with
  | nil => rfl
  | cons a l =>
    by_cases hp : p a
    · rw [List.takeWhile_cons_of_pos hp] at h
      exact absurd h (by simp)
    · exact List.dropWhile_cons_of_neg hp

theorem takeWhile_ne_nil_of_head {p : Char → Bool} {c : Char} {l : List Char}
    (h : p c = true) : (c :: l).takeWhile p ≠ [] := by
  rw [List.takeWhile_cons_of_pos h]
  simp

theorem dropWhile_mem_shape {l : List Char} (h : '/' ∈ l) :
    ∃ t, l.dropWhile (· ≠ '/') = '/' :: t := by
  induction l with
  | nil => cases h
  | cons a l ih =>
    by_cases ha : a = '/'
    · subst ha
      exact ⟨l, by simp⟩
    · have hmem : '/' ∈ l := by
        cases List.mem_cons.mp h with
        | inl h1 => exact absurd h1.symm ha
        | inr h2 => exact h2
      obtain ⟨t, ht⟩ := ih hmem
      refine ⟨t, ?_⟩
      rw [List.dropWhile_cons_of_pos (by simp [ha])]
      exact ht

/- Facts about the split helpers. -/

theorem splitAtLastSlash_append (l : List Char) :
    (splitAtLastSlash l).1 ++ (splitAtLastSlash l).2 = l := by
  unfold splitAtLastSlash
  rw [← List.reverse_append, List.takeWhile_append_dropWhile, List.reverse_reverse]

theorem splitAtLastSlash_no_slash (l : List Char) : '/' ∉ (splitAtLastSlash l).2 := by
  unfold splitAtLastSlash
  intro h
  exact not_mem_takeWhile_ne '/' l.reverse (List.mem_reverse.mp h)

theorem splitFragment_no_hash (r : List Char) : '#' ∉ (splitFragment r).1 := by
  unfold splitFragment
  split
  · exact not_mem_takeWhile_ne '#' r
  · assumption

theorem splitFragment_mem {r : List Char} {x : Char} (h : x ∈ (splitFragment r).1) : x ∈ r := by
  unfold splitFragment at h
  split at h
  · exact mem_of_mem_takeWhile h
  · exact h

theorem splitQuery_no_qm (r : List Char) : '?' ∉ (splitQuery r).1 := by
  unfold splitQuery
  split
  · exact not_mem_takeWhile_ne '?' r
  · assumption

theorem splitQuery_mem {r : List Char} {x : Char} (h : x ∈ (splitQuery r).1) : x ∈ r := by
  unfold splitQuery at h
  split at h
  · exact mem_of_mem_takeWhile h
  · exact h

/- Branch equations for splitParams and friends. -/

theorem splitFragment_of_not {r : List Char} (h : '#' ∉ r) : splitFragment r = (r, []) := by
  simp only [splitFragment]
  rw [if_neg h]

theorem splitQuery_of_not {r : List Char} (h : '?' ∉ r) : splitQuery r = (r, []) := by
  simp only [splitQuery]
  rw [if_neg h]

theorem splitParams_eq_cut {l : List Char} (h1 : '/' ∈ l) (h2 : ';' ∈ (splitAtLastSlash l).2) :
    splitParams l = ((splitAtLastSlash l).1 ++ (splitAtLastSlash l).2.takeWhile (· ≠ ';'),
      ((splitAtLastSlash l).2.dropWhile (· ≠ ';')).tail) := by
  simp only [splitParams]
  rw [if_pos h1, if_pos h2]

theorem splitParams_eq_keep {l : List Char} (h1 : '/' ∈ l) (h2 : ';' ∉ (splitAtLastSlash l).2) :
    splitParams l = (l, []) := by
  simp only [splitParams]
  rw [if_pos h1, if_neg h2]

theorem splitParams_eq_noslash {l : List Char} (h1 : '/' ∉ l) :
    splitParams l = (l.takeWhile (· ≠ ';'), (l.dropWhile (· ≠ ';')).tail) := by
  simp only [splitParams]
  rw [if_neg h1]

theorem splitParams_mem {l : List Char} {x : Char} (h : x ∈ (splitParams l).1) : x ∈ l := by
  by_cases hs : '/' ∈ l
  · by_cases hseg : ';' ∈ (splitAtLastSlash l).2
    · rw [splitParams_eq_cut hs hseg] at h
      rcases List.mem_append.mp h with h1 | h2
      · rw [← splitAtLastSlash_append l]
        exact List.mem_append_left _ h1
      · rw [← splitAtLastSlash_append l]
        exact List.mem_append_right _ (mem_of_mem_takeWhile h2)
    · rw [splitParams_eq_keep hs hseg] at h
      exact h
  · rw [splitParams_eq_noslash hs] at h
    exact mem_of_mem_takeWhile h

theorem splitParams_idem {l : List Char} (h : ';' ∈ (splitParams l).1) :
    splitParams ((splitParams l).1) = ((splitParams l).1, []) := by
  by_cases hs : '/' ∈ l
  · by_cases hseg : ';' ∈ (splitAtLastSlash l).2
    · -- the params were cut from the last segment
      have hres : (splitParams l).1
          = (splitAtLastSlash l).1 ++ (splitAtLastSlash l).2.takeWhile (· ≠ ';') := by
        rw [splitParams_eq_cut hs hseg]
      set pre := (splitAtLastSlash l).1 with hpre
      set seg := (splitAtLastSlash l).2 with hseg2
      -- pre ends with a slash
      obtain ⟨t0, ht0⟩ := dropWhile_mem_shape (List.mem_reverse.mpr hs)
      have hprerev : pre.reverse = '/' :: t0 := by
        rw [hpre]
        simp only [splitAtLastSlash]
        rw [List.reverse_reverse]
        exact ht0
      have hslashpre : '/' ∈ pre := by
        rw [← List.mem_reverse, hprerev]
        exact List.mem_cons_self _ _
      have hslashr : '/' ∈ (splitParams l).1 := by
        rw [hres]
        exact List.mem_append_left _ hslashpre
      -- last segment of the result
      have hseg' : (splitAtLastSlash ((splitParams l).1)).2 = seg.takeWhile (· ≠ ';') := by
        simp only [splitAtLastSlash]
        rw [hres, List.reverse_append]
        have hall : ∀ a ∈ (seg.takeWhile (· ≠ ';')).reverse, ((a ≠ '/' : Bool) = true) := by
          intro a ha
          have hmem : a ∈ seg := mem_of_mem_takeWhile (List.mem_reverse.mp ha)
          have : a ≠ '/' := by
            intro hEq
            subst hEq
            exact splitAtLastSlash_no_slash l hmem
          simpa using this
        rw [List.takeWhile_append_of_pos hall, hprerev,
            List.takeWhile_cons_of_neg (by simp), List.append_nil, List.reverse_reverse]
      have hnosemi : ';' ∉ (splitAtLastSlash ((splitParams l).1)).2 := by
        rw [hseg']
        exact not_mem_takeWhile_ne ';' seg
      exact splitParams_eq_keep hslashr hnosemi
    · -- no semicolon in the last segment: splitParams leaves l unchanged
      have hres : (splitParams l).1 = l := by
        rw [splitParams_eq_keep hs hseg]
      rw [hres] at h ⊢
      exact splitParams_eq_keep hs hseg
  · -- no slash: the result has no semicolon, contradiction
    have hres : (splitParams l).1 = l.takeWhile (· ≠ ';') := by
      rw [splitParams_eq_noslash hs]
    rw [hres] at h
    exact absurd h (not_mem_takeWhile_ne ';' l)

/- Facts about pathCore. -/

theorem pathCore_cases (r : List Char) :
    (';' ∉ (splitQuery (splitFragment r).1).1 ∧ pathCore r = (splitQuery (splitFragment r).1).1) ∨
    (';' ∈ (splitQuery (splitFragment r).1).1 ∧
      pathCore r = (splitParams ((splitQuery (splitFragment r).1).1)).1) := by
  simp only [pathCore]
  split
  · right
    exact ⟨by assumption, rfl⟩
  · left
    exact ⟨by assumption, rfl⟩

theorem pathCore_no_hash (r : List Char) : '#' ∉ pathCore r := by
  intro h
  rcases pathCore_cases r with ⟨_, hq⟩ | ⟨_, hq⟩
  · rw [hq] at h
    exact splitFragment_no_hash r (splitQuery_mem h)
  · rw [hq] at h
    exact splitFragment_no_hash r (splitQuery_mem (splitParams_mem h))

theorem pathCore_no_qm (r : List Char) : '?' ∉ pathCore r := by
  intro h
  rcases pathCore_cases r with ⟨_, hq⟩ | ⟨_, hq⟩
  · rw [hq] at h
    exact splitQuery_no_qm _ h
  · rw [hq] at h
    exact splitQuery_no_qm _ (splitParams_mem h)

theorem pathCore_of_clean {r : List Char} (h1 : '#' ∉ r) (h2 : '?' ∉ r) :
    pathCore r = if ';' ∈ r then (splitParams r).1 else r := by
  simp only [pathCore, splitFragment_of_not h1]
  simp only [splitQuery_of_not h2]

theorem pathCore_idem (r : List Char) : pathCore (pathCore r) = pathCore r := by
  rw [pathCore_of_clean (pathCore_no_hash r) (pathCore_no_qm r)]
  by_cases hsemi : ';' ∈ pathCore r
  · rw [if_pos hsemi]
    rcases pathCore_cases r with ⟨hnot, hq⟩ | ⟨_, hq⟩
    · rw [hq] at hsemi
      exact absurd hsemi hnot
    · rw [hq] at hsemi ⊢
      rw [splitParams_idem hsemi]
  · rw [if_neg hsemi]

/- urlparse on a string with an explicit http or https scheme. -/

theorem splitScheme_http (t : List Char) :
    splitScheme (schemeHttp ++ t) = ("http".toList, '/' :: '/' :: t) := rfl

theorem splitScheme_https (t : List Char) :
    splitScheme (schemeHttps ++ t) = ("https".toList, '/' :: '/' :: t) := rfl

theorem splitNetloc_slashes (t : List Char) :
    splitNetloc ('/' :: '/' :: t)
      = (t.takeWhile (fun c => !isUrlSep c), t.dropWhile (fun c => !isUrlSep c)) := rfl

theorem urlparse_netloc_http (t : List Char) :
    (urlparse (schemeHttp ++ t)).netloc = t.takeWhile (fun c => !isUrlSep c) := rfl

theorem urlparse_netloc_https (t : List Char) :
    (urlparse (schemeHttps ++ t)).netloc = t.takeWhile (fun c => !isUrlSep c) := rfl

theorem urlparse_path_http (t : List Char) :
    (urlparse (schemeHttp ++ t)).path = pathCore (t.dropWhile (fun c => !isUrlSep c)) := by
  have hm : ("http".toList) ∈ usesParams := by decide
  simp only [urlparse, splitScheme_http, splitNetloc_slashes, pathCore, hm, true_and]
  split <;> rfl

theorem urlparse_path_https (t : List Char) :
    (urlparse (schemeHttps ++ t)).path = pathCore (t.dropWhile (fun c => !isUrlSep c)) := by
  have hm : ("https".toList) ∈ usesParams := by decide
  simp only [urlparse, splitScheme_https, splitNetloc_slashes, pathCore, hm, true_and]
  split <;> rfl

theorem hasHttpScheme_append_http (t : List Char) : hasHttpScheme (schemeHttp ++ t) = true := by
  simp [hasHttpScheme, isPrefixOf_append]

theorem hasHttpScheme_append_https (t : List Char) : hasHttpScheme (schemeHttps ++ t) = true := by
  simp [hasHttpScheme, isPrefixOf_append]

/- The shape of normalize_url on scheme-carrying inputs. -/

theorem normalize_url_pfx (pfx t : List Char) (h : pfx = schemeHttp ∨ pfx = schemeHttps) :
    normalize_url (pfx ++ t) =
      if t.takeWhile (fun c => !isUrlSep c) = [] then schemeHttps ++ pathCore t
      else pfx ++ t := by
  have hdrop : t.takeWhile (fun c => !isUrlSep c) = [] →
      pathCore (t.dropWhile (fun c => !isUrlSep c)) = pathCore t := by
    intro hnil
    rw [dropWhile_eq_of_takeWhile_nil hnil]
  rcases h with rfl | rfl
  · simp only [normalize_url, hasHttpScheme_append_http, if_true,
      urlparse_netloc_http, urlparse_path_http]
    split
    · rw [hdrop (by assumption)]
    · rfl
  · simp only [normalize_url, hasHttpScheme_append_https, if_true,
      urlparse_netloc_https, urlparse_path_https]
    split
    · rw [hdrop (by assumption)]
    · rfl

theorem normalize_url_no_scheme {s : List Char} (h : hasHttpScheme s = false) :
    normalize_url s = normalize_url (schemeHttps ++ s) := by
  simp only [normalize_url, h, hasHttpScheme_append_https, if_true, Bool.false_eq_true, if_false]

theorem normalize_url_idem_pfx (pfx t : List Char) (h : pfx = schemeHttp ∨ pfx = schemeHttps) :
    normalize_url (normalize_url (pfx ++ t)) = normalize_url (pfx ++ t) := by
  rw [normalize_url_pfx pfx t h]
  split
  · -- rewrapped under https with the parsed path
    rw [normalize_url_pfx schemeHttps (pathCore t) (Or.inr rfl)]
    split
    · rw [pathCore_idem]
    · rfl
  · -- untouched; normalize is the identity here again
    rw [normalize_url_pfx pfx t h]
    rename_i hne
    rw [if_neg hne]

end OLC

namespace OLC

/- Idempotence and scheme facts for normalize_url, assembled. -/

theorem hasHttpScheme_decomp {s : List Char} (h : hasHttpScheme s = true) :
    (∃ t, s = schemeHttp ++ t) ∨ (∃ t, s = schemeHttps ++ t) := by
  simp only [hasHttpScheme, Bool.or_eq_true] at h
  rcases h with h | h
  · exact Or.inl (isPrefixOf_decomp h)
  · exact Or.inr (isPrefixOf_decomp h)

theorem normalize_url_idem (s : List Char) :
    normalize_url (normalize_url s) = normalize_url s := by
  by_cases h : hasHttpScheme s = true
  · rcases hasHttpScheme_decomp h with ⟨t, rfl⟩ | ⟨t, rfl⟩
    · exact normalize_url_idem_pfx schemeHttp t (Or.inl rfl)
    · exact normalize_url_idem_pfx schemeHttps t (Or.inr rfl)
  · have hf : hasHttpScheme s = false := by simpa using h
    rw [normalize_url_no_scheme hf]
    exact normalize_url_idem_pfx schemeHttps s (Or.inr rfl)

theorem hasHttpScheme_normalize_pfx (pfx t : List Char)
    (h : pfx = schemeHttp ∨ pfx = schemeHttps) :
    hasHttpScheme (normalize_url (pfx ++ t)) = true := by
  rw [normalize_url_pfx pfx t h]
  split
  · exact hasHttpScheme_append_https _
  · rcases h with rfl | rfl
    · exact hasHttpScheme_append_http _
    · exact hasHttpScheme_append_https _

theorem hasHttpScheme_normalize (s : List Char) :
    hasHttpScheme (normalize_url s) = true := by
  by_cases h : hasHttpScheme s = true
  · rcases hasHttpScheme_decomp h with ⟨t, rfl⟩ | ⟨t, rfl⟩
    · exact hasHttpScheme_normalize_pfx schemeHttp t (Or.inl rfl)
    · exact hasHttpScheme_normalize_pfx schemeHttps t (Or.inr rfl)
  · have hf : hasHttpScheme s = false := by simpa using h
    rw [normalize_url_no_scheme hf]
    exact hasHttpScheme_normalize_pfx schemeHttps s (Or.inr rfl)

theorem extract_domain_normalize_pfx_ne (pfx t : List Char)
    (h : pfx = schemeHttp ∨ pfx = schemeHttps)
    (hne : t.takeWhile (fun c => !isUrlSep c) ≠ []) :
    extract_domain (normalize_url (pfx ++ t)) ≠ [] := by
  rw [normalize_url_pfx pfx t h, if_neg hne]
  rcases h with rfl | rfl
  · simp only [extract_domain, urlparse_netloc_http]
    rw [if_pos hne]
    exact hne
  · simp only [extract_domain, urlparse_netloc_https]
    rw [if_pos hne]
    exact hne

theorem schemeHttps_drop {s t : List Char} (h : s = schemeHttps ++ t) : s.drop 8 = t := by
  rw [h]
  exact List.drop_left schemeHttps t

theorem schemeHttp_drop {s t : List Char} (h : s = schemeHttp ++ t) : s.drop 7 = t := by
  rw [h]
  exact List.drop_left schemeHttp t

end OLC

namespace OLC

/-- C2 counterexample: the claim asserts extract_domain after normalize is
non-empty for every non-empty input, but the non-empty input consisting of
one slash normalizes to a URL with no host and an empty domain. -/
theorem C2_counterexample :
    ("/".toList ≠ [] ∧ extract_domain (normalize_url ("/".toList)) = []) := by decide

/-- C2 (amended): normalize_url is idempotent on every string and its result
always carries an explicit http or https scheme; the extracted domain of the
normalized input is non-empty provided the input, after removing a leading
http or https scheme when present, is non-empty and does not start with a
slash, question mark or hash. -/
theorem C2_normalize_idempotent_scheme_domain :
    (∀ s, normalize_url (normalize_url s) = normalize_url s) ∧
    (∀ s, hasHttpScheme (normalize_url s) = true) ∧
    (∀ s c rest, stripHttp s = c :: rest → isUrlSep c = false →
      extract_domain (normalize_url s) ≠ []) := by
  refine ⟨normalize_url_idem, hasHttpScheme_normalize, ?_⟩
  intro s c rest hstrip hsep
  have hhead : (c :: rest).takeWhile (fun x => !isUrlSep x) ≠ [] :=
    takeWhile_ne_nil_of_head (by simp [hsep])
  by_cases h2 : schemeHttps.isPrefixOf s = true
  · obtain ⟨t, rfl⟩ := isPrefixOf_decomp h2
    have hs : stripHttp (schemeHttps ++ t) = t := by
      simp only [stripHttp]
      rw [if_pos h2]
      exact schemeHttps_drop rfl
    rw [hs] at hstrip
    subst hstrip
    exact extract_domain_normalize_pfx_ne schemeHttps _ (Or.inr rfl) hhead
  · by_cases h1 : schemeHttp.isPrefixOf s = true
    · obtain ⟨t, rfl⟩ := isPrefixOf_decomp h1
      have hs : stripHttp (schemeHttp ++ t) = t := by
        simp only [stripHttp]
        rw [if_neg (by simpa using h2), if_pos h1]
        exact schemeHttp_drop rfl
      rw [hs] at hstrip
      subst hstrip
      exact extract_domain_normalize_pfx_ne schemeHttp _ (Or.inl rfl) hhead
    · have hno : hasHttpScheme s = false := by
        simp only [hasHttpScheme, Bool.or_eq_false_iff]
        constructor
        · simp only [Bool.not_eq_true] at h1
          exact h1
        · simp only [Bool.not_eq_true] at h2
          exact h2
      have hs : stripHttp s = s := by
        simp only [stripHttp]
        rw [if_neg (by simpa using h2), if_neg (by simpa using h1)]
      rw [hs] at hstrip
      rw [normalize_url_no_scheme hno, hstrip]
      exact extract_domain_normalize_pfx_ne schemeHttps _ (Or.inr rfl) hhead

/-- Witness for the amended C2 at a concrete bare domain. -/
theorem C2_witness :
    normalize_url (normalize_url ("example.com".toList)) = normalize_url ("example.com".toList) ∧
    hasHttpScheme (normalize_url ("example.com".toList)) = true ∧
    extract_domain (normalize_url ("example.com".toList)) ≠ [] :=
  ⟨C2_normalize_idempotent_scheme_domain.1 _,
   C2_normalize_idempotent_scheme_domain.2.1 _,
   C2_normalize_idempotent_scheme_domain.2.2 ("example.com".toList) 'e' ("xample.com".toList)
     (by decide) (by decide)⟩

end OLC

namespace OLC

theorem truthyS_some_ne {s : List Char} (h : s ≠ []) : truthyS (some s) = true := by
  cases s with
  | nil => exact absurd rfl h
  | cons c rest => rfl

/-- C1: when the catalog already holds an entry whose link extracts to the
same domain as the normalized input, add reports the duplicate, appends
nothing and saves nothing, whatever the piped input, classifier response
and timestamps are. -/
theorem C1_duplicate_add_rejected (data : List Entry) (args : AddArgs)
    (stdin : Option (List Char)) (ai : Option AIResult) (nowC nowU input : List Char)
    (hlink : args.link = some input) (hne : input ≠ []) (e : Entry) (he : e ∈ data)
    (hdom : extract_domain e.link = extract_domain (normalize_url input)) :
    add data args stdin ai nowC nowU = ⟨.duplicate, data, false⟩ := by
  have ht : truthyS args.link = true := by rw [hlink]; exact truthyS_some_ne hne
  have hany : data.any
      (fun e2 => extract_domain e2.link == extract_domain (normalize_url (input))) = true :=
    List.any_eq_true.mpr ⟨e, he, by rw [hdom]; exact beq_self_eq_true _⟩
  simp only [add, ht, Bool.not_true, Bool.false_eq_true, if_false, hlink,
    Option.getD_some, truthyS_some_ne hne, Bool.true_eq_false, hany,
    eq_self_iff_true, if_true]

/-- Witness for C1: a catalog holding example.com rejects a second add of
the same domain under a different scheme and path. -/
theorem C1_witness :
    add [sampleEntry ("https://example.com".toList) ("E".toList)]
      { emptyAddArgs with link := some ("http://example.com/some/path".toList) }
      none none ("T1".toList) ("T1".toList)
      = ⟨.duplicate, [sampleEntry ("https://example.com".toList) ("E".toList)], false⟩ :=
  C1_duplicate_add_rejected _ _ _ _ _ _ _ rfl (by decide) _ (List.mem_singleton.mpr rfl)
    (by decide)

end OLC

namespace OLC

theorem truthyS_getD_ne {a : Option (List Char)} (h : truthyS a = true) : a.getD [] ≠ [] := by
  cases a with
  | none => simp [truthyS] at h
  | some s =>
    cases s with
    | nil => simp [truthyS] at h
    | cons c r => simp

theorem truthyL_getD_ne {a : Option (List (List Char))} (h : truthyL a = true) :
    a.getD [] ≠ [] := by
  cases a with
  | none => simp [truthyL] at h
  | some s =>
    cases s with
    | nil => simp [truthyL] at h
    | cons c r => simp

theorem pySplit_ne_nil (sep : Char) (l : List Char) : pySplit sep l ≠ [] := by
  cases l with
  | nil => simp [pySplit]
  | cons c rest =>
    simp only [pySplit]
    split
    · simp
    · split <;> simp

/-- C3: the entry edit rewrites keeps every field whose argument is absent or
falsy, overwrites exactly the truthy ones with their converted values,
refreshes date_updated, never touches link, data_types or date_collected,
and can never clear a non-empty field to empty. -/
theorem C3_edit_frame (e : Entry) (a : EditArgs) (now : List Char) (e2 : Entry)
    (h : applyEdit e a now = some e2) :
    e2.name = (if truthyS a.name then a.name.getD [] else e.name) ∧
    e2.description = (if truthyS a.desc then a.desc.getD [] else e.description) ∧
    e2.type = (if truthyS a.type then a.type.getD [] else e.type) ∧
    e2.subtypes = (if truthyL a.sub then a.sub.getD [] else e.subtypes) ∧
    e2.tags = (if truthyS a.tags then pySplit ',' (a.tags.getD []) else e.tags) ∧
    e2.roles = (if truthyS a.roles then pySplit ',' (a.roles.getD []) else e.roles) ∧
    e2.cost = (if truthyS a.cost then a.cost.getD [] else e.cost) ∧
    e2.language = (if truthyS a.lang then a.lang.getD [] else e.language) ∧
    e2.requires_account =
      (if truthyS a.account then pyLower (a.account.getD []) == "true".toList
       else e.requires_account) ∧
    e2.api_available =
      (if truthyS a.api then pyLower (a.api.getD []) == "true".toList
       else e.api_available) ∧
    (truthyS a.rating = false → e2.metrics.rating = e.metrics.rating) ∧
    (truthyS a.rating_count = false → e2.metrics.rating_count = e.metrics.rating_count) ∧
    e2.link = e.link ∧ e2.data_types = e.data_types ∧
    e2.date_collected = e.date_collected ∧ e2.date_updated = now ∧
    (e.name ≠ [] → e2.name ≠ []) ∧ (e.description ≠ [] → e2.description ≠ []) ∧
    (e.type ≠ [] → e2.type ≠ []) ∧ (e.subtypes ≠ [] → e2.subtypes ≠ []) ∧
    (e.tags ≠ [] → e2.tags ≠ []) ∧ (e.roles ≠ [] → e2.roles ≠ []) ∧
    (e.cost ≠ [] → e2.cost ≠ []) ∧ (e.language ≠ [] → e2.language ≠ []) := by
  simp only [applyEdit] at h
  rcases hr : (if truthyS a.rating then pyFloat? (a.rating.getD [])
      else some e.metrics.rating) with _ | rv <;>
    rcases hc : (if truthyS a.rating_count then pyInt? (a.rating_count.getD [])
      else some e.metrics.rating_count) with _ | cv <;>
    rw [hr, hc] at h
  · exact absurd h (by simp)
  · exact absurd h (by simp)
  · exact absurd h (by simp)
  · have he2 := Option.some.inj h
    subst he2
    refine ⟨rfl, rfl, rfl, rfl, rfl, rfl, rfl, rfl, rfl, rfl, ?_, ?_, rfl, rfl, rfl, rfl,
      ?_, ?_, ?_, ?_, ?_, ?_, ?_, ?_⟩
    · intro hf
      rw [hf] at hr
      simp only [Bool.false_eq_true, if_false] at hr
      exact (Option.some.inj hr).symm
    · intro hf
      rw [hf] at hc
      simp only [Bool.false_eq_true, if_false] at hc
      exact (Option.some.inj hc).symm
    · intro hne
      show (if truthyS a.name then a.name.getD [] else e.name) ≠ []
      by_cases ht : truthyS a.name = true
      · rw [if_pos ht]
        exact truthyS_getD_ne ht
      · rw [if_neg ht]
        exact hne
    · intro hne
      show (if truthyS a.desc then a.desc.getD [] else e.description) ≠ []
      by_cases ht : truthyS a.desc = true
      · rw [if_pos ht]
        exact truthyS_getD_ne ht
      · rw [if_neg ht]
        exact hne
    · intro hne
      show (if truthyS a.type then a.type.getD [] else e.type) ≠ []
      by_cases ht : truthyS a.type = true
      · rw [if_pos ht]
        exact truthyS_getD_ne ht
      · rw [if_neg ht]
        exact hne
    · intro hne
      show (if truthyL a.sub then a.sub.getD [] else e.subtypes) ≠ []
      by_cases ht : truthyL a.sub = true
      · rw [if_pos ht]
        exact truthyL_getD_ne ht
      · rw [if_neg ht]
        exact hne
    · intro hne
      show (if truthyS a.tags then pySplit ',' (a.tags.getD []) else e.tags) ≠ []
      by_cases ht : truthyS a.tags = true
      · rw [if_pos ht]
        exact pySplit_ne_nil ',' _
      · rw [if_neg ht]
        exact hne
    · intro hne
      show (if truthyS a.roles then pySplit ',' (a.roles.getD []) else e.roles) ≠ []
      by_cases ht : truthyS a.roles = true
      · rw [if_pos ht]
        exact pySplit_ne_nil ',' _
      · rw [if_neg ht]
        exact hne
    · intro hne
      show (if truthyS a.cost then a.cost.getD [] else e.cost) ≠ []
      by_cases ht : truthyS a.cost = true
      · rw [if_pos ht]
        exact truthyS_getD_ne ht
      · rw [if_neg ht]
        exact hne
    · intro hne
      show (if truthyS a.lang then a.lang.getD [] else e.language) ≠ []
      by_cases ht : truthyS a.lang = true
      · rw [if_pos ht]
        exact truthyS_getD_ne ht
      · rw [if_neg ht]
        exact hne

end OLC

namespace OLC

/-- Witness for C3 at a concrete entry edited with only a new name: the name
is overwritten, the description is kept, date_updated is refreshed and
date_collected is kept. -/
theorem C3_witness :
    ({ sampleEntry ("https://a.com".toList) ("n".toList) with
        name := "New".toList, date_updated := "T1".toList } : Entry).name = "New".toList ∧
    ({ sampleEntry ("https://a.com".toList) ("n".toList) with
        name := "New".toList, date_updated := "T1".toList } : Entry).description = "d".toList ∧
    ({ sampleEntry ("https://a.com".toList) ("n".toList) with
        name := "New".toList, date_updated := "T1".toList } : Entry).date_updated = "T1".toList ∧
    ({ sampleEntry ("https://a.com".toList) ("n".toList) with
        name := "New".toList, date_updated := "T1".toList } : Entry).date_collected
      = "T0".toList := by
  have h := C3_edit_frame (sampleEntry ("https://a.com".toList) ("n".toList))
    { emptyEditArgs ("a.com".toList) with name := some ("New".toList) } ("T1".toList)
    ({ sampleEntry ("https://a.com".toList) ("n".toList) with
        name := "New".toList, date_updated := "T1".toList }) (by decide)
  refine ⟨h.1.trans (by decide), h.2.1.trans (by decide), h.2.2.2.2.2.2.2.2.2.2.2.2.2.2.2.1, ?_⟩
  exact (h.2.2.2.2.2.2.2.2.2.2.2.2.2.2.1).trans (by decide)

/-- C4: rm deletes exactly the entries whose domain matches the normalized
input and persists when at least one matched; with no match it reports
not-found without saving, and after a successful rm a view of the same
identifier finds nothing. -/
theorem C4_rm_then_view (data : List Entry) (input : List Char)
    (stdin : Option (List Char)) (hne : input ≠ []) :
    ((∀ e ∈ data, extract_domain e.link ≠ extract_domain (normalize_url input)) →
      rm data (some input) stdin = ⟨.notFound, data, false⟩) ∧
    ((∃ e ∈ data, extract_domain e.link = extract_domain (normalize_url input)) →
      rm data (some input) stdin =
        ⟨.ok, data.filter
          (fun e => !(extract_domain e.link == extract_domain (normalize_url input))), true⟩ ∧
      view_details ((rm data (some input) stdin).data) input = none) := by
  have ht := truthyS_some_ne hne
  constructor
  · intro hall
    have hfilter : data.filter
        (fun e => !(extract_domain e.link == extract_domain (normalize_url input))) = data := by
      apply List.filter_eq_self.mpr
      intro e he
      have hb : (extract_domain e.link == extract_domain (normalize_url input)) = false :=
        beq_eq_false_iff_ne.mpr (hall e he)
      rw [hb]
      rfl
    simp only [rm, ht, Bool.not_true, Bool.false_eq_true, if_false, Option.getD_some,
      Bool.true_eq_false, hfilter, eq_self_iff_true, if_true]
  · rintro ⟨e, he, heq⟩
    have hlen : (data.filter
        (fun e => !(extract_domain e.link == extract_domain (normalize_url input)))).length
        ≠ data.length := by
      intro hcon
      have hall := List.filter_length_eq_length.mp hcon e he
      rw [beq_iff_eq.mpr heq] at hall
      exact absurd hall (by simp)
    have hres : rm data (some input) stdin =
        ⟨.ok, data.filter
          (fun e => !(extract_domain e.link == extract_domain (normalize_url input))), true⟩ := by
      simp only [rm, ht, Bool.not_true, Bool.false_eq_true, if_false, Option.getD_some,
        Bool.true_eq_false]
      rw [if_neg hlen]
    refine ⟨hres, ?_⟩
    rw [hres]
    simp only [view_details]
    apply List.find?_eq_none.mpr
    intro x hx
    have hpred := (List.mem_filter.mp hx).2
    intro hbeq
    rw [hbeq] at hpred
    exact absurd hpred (by simp)

/-- Witness for C4: removing a.com from a two-entry catalog keeps only b.com,
persists, and a subsequent view of a.com reports nothing; removing a domain
that is absent reports not-found without saving. -/
theorem C4_witness :
    (rm [sampleEntry ("https://a.com".toList) ("a".toList),
         sampleEntry ("https://b.com".toList) ("b".toList)] (some ("a.com".toList)) none =
      ⟨.ok, [sampleEntry ("https://b.com".toList) ("b".toList)], true⟩ ∧
      view_details ((rm [sampleEntry ("https://a.com".toList) ("a".toList),
         sampleEntry ("https://b.com".toList) ("b".toList)]
           (some ("a.com".toList)) none).data) ("a.com".toList) = none) ∧
    rm [sampleEntry ("https://b.com".toList) ("b".toList)] (some ("c.com".toList)) none =
      ⟨.notFound, [sampleEntry ("https://b.com".toList) ("b".toList)], false⟩ := by
  constructor
  · have h := (C4_rm_then_view
      [sampleEntry ("https://a.com".toList) ("a".toList),
       sampleEntry ("https://b.com".toList) ("b".toList)] ("a.com".toList) none
      (by decide)).2
      ⟨sampleEntry ("https://a.com".toList) ("a".toList), by decide⟩
    exact ⟨h.1.trans (by decide), h.2⟩
  · have h := (C4_rm_then_view [sampleEntry ("https://b.com".toList) ("b".toList)]
      ("c.com".toList) none (by decide)).1 (by decide)
    exact h

end OLC

namespace OLC

theorem isPrefixOf_true_iff {p s : List Char} : p.isPrefixOf s = true ↔ p <+: s := by
  constructor
  · intro h
    obtain ⟨t, rfl⟩ := isPrefixOf_decomp h
    exact ⟨t, rfl⟩
  · rintro ⟨t, rfl⟩
    exact isPrefixOf_append p t

theorem pyIn_iff (n : List Char) : ∀ h : List Char, pyIn n h = true ↔ n <:+: h := by
  intro h
  induction h with
  | nil => simp [pyIn, List.isEmpty_iff, List.infix_nil]
  | cons c rest ih =>
    simp only [pyIn, Bool.or_eq_true, ih, isPrefixOf_true_iff, List.infix_cons_iff]

theorem pyIn_eq_decide (n h : List Char) : pyIn n h = decide (n <:+: h) := by
  by_cases hp : n <:+: h
  · simp [hp, (pyIn_iff n h).mpr hp]
  · cases hb : pyIn n h with
    | false => simp [hp]
    | true => exact absurd ((pyIn_iff n h).mp hb) hp

theorem decide_or_eq (p q : Prop) [Decidable p] [Decidable q] :
    decide (p ∨ q) = (decide p || decide q) := by
  by_cases hp : p <;> by_cases hq : q <;> simp [hp, hq]

/-- C5: find returns exactly the catalog-ordered entries for which the
lowercased query is a contiguous substring of one of the eight lowercased
searched texts: name, link, extracted domain, description, type, and the
space-joined subtypes, tags and roles. -/
theorem C5_find_characterization (data : List Entry) (q : List Char) :
    find data q = data.filter (fun e => decide
      (pyLower q <:+: pyLower e.name ∨
       pyLower q <:+: pyLower e.link ∨
       pyLower q <:+: pyLower (extract_domain e.link) ∨
       pyLower q <:+: pyLower e.description ∨
       pyLower q <:+: pyLower e.type ∨
       pyLower q <:+: pyLower (pyJoin ' ' e.subtypes) ∨
       pyLower q <:+: pyLower (pyJoin ' ' e.tags) ∨
       pyLower q <:+: pyLower (pyJoin ' ' e.roles))) := by
  simp only [find]
  apply List.filter_congr
  intro e he
  simp only [matchesEntry, pyIn_eq_decide, decide_or_eq, Bool.or_assoc]

theorem pyIn_nil (l : List Char) : pyIn [] l = true := by
  cases l with
  | nil => rfl
  | cons c rest => simp [pyIn, List.isPrefixOf]

/-- C10: find with the empty query returns the whole catalog in order, since
the empty string is a substring of every searched field. -/
theorem C10_find_empty_query (data : List Entry) : find data [] = data := by
  simp only [find]
  apply List.filter_eq_self.mpr
  intro e he
  simp [matchesEntry, pyLower, pyIn_nil]

end OLC

namespace OLC

theorem applyEdit_date {e : Entry} {a : EditArgs} {now : List Char} {e2 : Entry}
    (h : applyEdit e a now = some e2) : e2.date_updated = now := by
  simp only [applyEdit] at h
  rcases hr : (if truthyS a.rating then pyFloat? (a.rating.getD [])
      else some e.metrics.rating) with _ | rv <;>
    rcases hc : (if truthyS a.rating_count then pyInt? (a.rating_count.getD [])
      else some e.metrics.rating_count) with _ | cv <;>
    rw [hr, hc] at h
  · exact absurd h (by simp)
  · exact absurd h (by simp)
  · exact absurd h (by simp)
  · have he2 := Option.some.inj h
    subst he2
    rfl

theorem editGo_first (d : List Char) (a : EditArgs) (now : List Char) :
    ∀ (pre : List Entry) (e : Entry) (post : List Entry) (e2 : Entry),
      (∀ x ∈ pre, extract_domain x.link ≠ d) →
      extract_domain e.link = d → applyEdit e a now = some e2 →
      editGo d a now (pre ++ e :: post) = ⟨.ok, pre ++ e2 :: post, true⟩ := by
  intro pre
  induction pre with
  | nil =>
    intro e post e2 hpre he happ
    simp only [List.nil_append, editGo, beq_iff_eq.mpr he, if_true, happ]
  | cons x pre ih =>
    intro e post e2 hpre he happ
    have hx : (extract_domain x.link == d) = false :=
      beq_eq_false_iff_ne.mpr (hpre x (List.mem_cons_self x pre))
    simp only [List.cons_append, editGo, hx, Bool.false_eq_true, if_false, List.append_eq]
    rw [ih e post e2 (fun y hy => hpre y (List.mem_cons_of_mem x hy)) he happ]

/-- C8: on a catalog where several entries share the target domain, edit
rewrites only the first matching entry, refreshing its date_updated, and
returns every entry after it, the other same-domain entries included,
untouched. -/
theorem C8_edit_first_match_only (pre post : List Entry) (e : Entry) (a : EditArgs)
    (now : List Char) (e2 : Entry)
    (hpre : ∀ x ∈ pre, extract_domain x.link ≠ extract_domain (normalize_url a.link))
    (he : extract_domain e.link = extract_domain (normalize_url a.link))
    (happ : applyEdit e a now = some e2) :
    edit (pre ++ e :: post) a now = ⟨.ok, pre ++ e2 :: post, true⟩ ∧
    e2.date_updated = now := by
  constructor
  · simp only [edit]
    rw [editGo_first _ a now pre e post e2 hpre he happ]
    simp
  · exact applyEdit_date happ

/-- Witness for C8: a hand-made catalog with two a.com entries; editing a.com
renames only the first, while the second stays byte-identical. -/
theorem C8_witness :
    edit [sampleEntry ("https://a.com".toList) ("one".toList),
          sampleEntry ("https://a.com".toList) ("two".toList)]
      { emptyEditArgs ("a.com".toList) with name := some ("New".toList) } ("T1".toList)
      = ⟨.ok, [{ sampleEntry ("https://a.com".toList) ("one".toList) with
                  name := "New".toList, date_updated := "T1".toList },
               sampleEntry ("https://a.com".toList) ("two".toList)], true⟩ :=
  (C8_edit_first_match_only [] [sampleEntry ("https://a.com".toList) ("two".toList)]
    (sampleEntry ("https://a.com".toList) ("one".toList))
    { emptyEditArgs ("a.com".toList) with name := some ("New".toList) } ("T1".toList)
    ({ sampleEntry ("https://a.com".toList) ("one".toList) with
        name := "New".toList, date_updated := "T1".toList })
    (by intro x hx; exact absurd hx (List.not_mem_nil x)) (by decide) (by decide)).1

end OLC

namespace OLC

/- The effective argparse namespace inside add, when the classifier backfill
cannot have replaced it: any field projection is unchanged. -/

theorem backfill_ite_proj {α : Type} (f : AddArgs → α) (args : AddArgs)
    (ai : Option AIResult) (link0 : Option (List Char))
    (hnb : truthyS args.name = true ∨ truthyS args.desc = true ∨
      truthyS args.type = true ∨ ai = none) :
    f (if truthyS link0 ∧ truthyS args.name = false ∧ truthyS args.desc = false ∧
          truthyS args.type = false then backfillOpt args ai
      else args) = f args := by
  split
  · rename_i hcond
    obtain ⟨-, hn, hdc, hty⟩ := hcond
    rcases hnb with h | h | h | h
    · rw [hn] at h
      exact absurd h (by simp)
    · rw [hdc] at h
      exact absurd h (by simp)
    · rw [hty] at h
      exact absurd h (by simp)
    · subst h
      rfl
  · rfl

theorem backfill_ite_count (args : AddArgs) (ai : Option AIResult)
    (link0 : Option (List Char)) :
    (if truthyS link0 ∧ truthyS args.name = false ∧ truthyS args.desc = false ∧
          truthyS args.type = false then backfillOpt args ai
      else args).rating_count = args.rating_count := by
  split
  · cases ai with
    | some r => rfl
    | none => rfl
  · rfl

theorem applyEdit_none_of_rating {e : Entry} {a : EditArgs} {now : List Char}
    (h1 : truthyS a.rating = true) (h2 : pyFloat? (a.rating.getD []) = none) :
    applyEdit e a now = none := by
  simp only [applyEdit, h1, eq_self_iff_true, if_true, h2]

theorem applyEdit_none_of_count {e : Entry} {a : EditArgs} {now : List Char}
    (h1 : truthyS a.rating_count = true) (h2 : pyInt? (a.rating_count.getD []) = none) :
    applyEdit e a now = none := by
  simp only [applyEdit, h1, eq_self_iff_true, if_true, h2]
  rcases hr : (if truthyS a.rating then pyFloat? (a.rating.getD [])
      else some e.metrics.rating) with _ | rv <;> rfl

theorem editGo_never_ok {d : List Char} {a : EditArgs} {now : List Char}
    (h : ∀ e, applyEdit e a now = none) :
    ∀ l, (editGo d a now l).status ≠ .ok ∧ (editGo d a now l).saved = false := by
  intro l
  induction l with
  | nil => exact ⟨by simp [editGo], by simp [editGo]⟩
  | cons e rest ih =>
    by_cases hb : (extract_domain e.link == d) = true
    · refine ⟨?_, ?_⟩ <;> simp only [editGo, hb, eq_self_iff_true, if_true, h e] <;> simp
    · have hb2 : (extract_domain e.link == d) = false := by simpa using hb
      refine ⟨?_, ?_⟩
      · simp only [editGo, hb2, Bool.false_eq_true, if_false]
        exact ih.1
      · simp only [editGo, hb2, Bool.false_eq_true, if_false]
        exact ih.2

theorem edit_aborts_of_conv {data : List Entry} {a : EditArgs} {now : List Char}
    (h : ∀ e, applyEdit e a now = none) :
    (edit data a now).saved = false ∧ (edit data a now).data = data ∧
    (edit data a now).status ≠ .ok := by
  have hk := editGo_never_ok (d := extract_domain (normalize_url a.link)) h data
  simp only [edit]
  rw [if_neg hk.1]
  exact ⟨rfl, rfl, hk.1⟩

theorem add_aborts_of_bad_rating (data : List Entry) (args : AddArgs)
    (stdin : Option (List Char)) (ai : Option AIResult) (nowC nowU : List Char)
    (hrt : truthyS args.rating = true) (hrf : pyFloat? (args.rating.getD []) = none)
    (hnb : truthyS args.name = true ∨ truthyS args.desc = true ∨
      truthyS args.type = true ∨ ai = none) :
    (add data args stdin ai nowC nowU).saved = false ∧
    (add data args stdin ai nowC nowU).data = data ∧
    (add data args stdin ai nowC nowU).status ≠ .ok := by
  have key : add data args stdin ai nowC nowU = ⟨.missingInput, data, false⟩ ∨
      add data args stdin ai nowC nowU = ⟨.duplicate, data, false⟩ ∨
      add data args stdin ai nowC nowU = ⟨.convError, data, false⟩ := by
    simp only [add]
    set L := (if !truthyS args.link then
        (match stdin with
         | some s => some (pyStrip s)
         | none => args.link)
      else args.link) with hLdef
    by_cases hL : truthyS L = false
    · rw [if_pos hL]
      exact Or.inl rfl
    · rw [if_neg hL]
      by_cases hdup : (data.any fun e =>
          extract_domain e.link == extract_domain (normalize_url (L.getD []))) = true
      · rw [if_pos hdup]
        exact Or.inr (Or.inl rfl)
      · rw [if_neg hdup]
        rw [backfill_ite_proj AddArgs.rating args ai L hnb]
        simp only [hrt, eq_self_iff_true, if_true, hrf]
        exact Or.inr (Or.inr trivial)
  rcases key with h | h | h <;> rw [h] <;> exact ⟨rfl, rfl, by simp⟩

theorem add_aborts_of_bad_count (data : List Entry) (args : AddArgs)
    (stdin : Option (List Char)) (ai : Option AIResult) (nowC nowU : List Char)
    (hct : truthyS args.rating_count = true) (hcf : pyInt? (args.rating_count.getD []) = none) :
    (add data args stdin ai nowC nowU).saved = false ∧
    (add data args stdin ai nowC nowU).data = data ∧
    (add data args stdin ai nowC nowU).status ≠ .ok := by
  have key : add data args stdin ai nowC nowU = ⟨.missingInput, data, false⟩ ∨
      add data args stdin ai nowC nowU = ⟨.duplicate, data, false⟩ ∨
      add data args stdin ai nowC nowU = ⟨.convError, data, false⟩ := by
    simp only [add]
    set L := (if !truthyS args.link then
        (match stdin with
         | some s => some (pyStrip s)
         | none => args.link)
      else args.link) with hLdef
    by_cases hL : truthyS L = false
    · rw [if_pos hL]
      exact Or.inl rfl
    · rw [if_neg hL]
      by_cases hdup : (data.any fun e =>
          extract_domain e.link == extract_domain (normalize_url (L.getD []))) = true
      · rw [if_pos hdup]
        exact Or.inr (Or.inl rfl)
      · rw [if_neg hdup]
        rw [backfill_ite_count args ai L]
        simp only [hct, eq_self_iff_true, if_true, hcf]
        rcases _hr : (if truthyS (if truthyS L ∧ truthyS args.name = false ∧
            truthyS args.desc = false ∧ truthyS args.type = false then backfillOpt args ai
            else args).rating = true then
            pyFloat? ((if truthyS L ∧ truthyS args.name = false ∧
              truthyS args.desc = false ∧ truthyS args.type = false then backfillOpt args ai
              else args).rating.getD [])
          else some (PyFloat.finite 0)) with _ | rv
        · exact Or.inr (Or.inr rfl)
        · exact Or.inr (Or.inr rfl)
  rcases key with h | h | h <;> rw [h] <;> exact ⟨rfl, rfl, by simp⟩

/-- C7 (amended): an unparseable rating or rating_count argument makes add
and edit abort without persisting and without changing the stored catalog —
for the rating argument of add, provided the classifier backfill did not
replace it (some descriptive field supplied, or no classifier response);
the rating_count argument is never backfilled, so no proviso is needed
there, and edit has no backfill at all. -/
theorem C7_numeric_abort_no_persist :
    (∀ data args stdin ai nowC nowU, truthyS args.rating = true →
      pyFloat? (args.rating.getD []) = none →
      (truthyS args.name = true ∨ truthyS args.desc = true ∨
        truthyS args.type = true ∨ ai = none) →
      (add data args stdin ai nowC nowU).saved = false ∧
      (add data args stdin ai nowC nowU).data = data ∧
      (add data args stdin ai nowC nowU).status ≠ .ok) ∧
    (∀ data args stdin ai nowC nowU, truthyS args.rating_count = true →
      pyInt? (args.rating_count.getD []) = none →
      (add data args stdin ai nowC nowU).saved = false ∧
      (add data args stdin ai nowC nowU).data = data ∧
      (add data args stdin ai nowC nowU).status ≠ .ok) ∧
    (∀ data a now, truthyS a.rating = true → pyFloat? (a.rating.getD []) = none →
      (edit data a now).saved = false ∧ (edit data a now).data = data ∧
      (edit data a now).status ≠ .ok) ∧
    (∀ data a now, truthyS a.rating_count = true → pyInt? (a.rating_count.getD []) = none →
      (edit data a now).saved = false ∧ (edit data a now).data = data ∧
      (edit data a now).status ≠ .ok) :=
  ⟨fun data args stdin ai nowC nowU h1 h2 h3 =>
      add_aborts_of_bad_rating data args stdin ai nowC nowU h1 h2 h3,
   fun data args stdin ai nowC nowU h1 h2 =>
      add_aborts_of_bad_count data args stdin ai nowC nowU h1 h2,
   fun data a now h1 h2 =>
      edit_aborts_of_conv (fun e => applyEdit_none_of_rating h1 h2),
   fun data a now h1 h2 =>
      edit_aborts_of_conv (fun e => applyEdit_none_of_count h1 h2)⟩

/-- C7 counterexample: the claim as stated fails, because when no
descriptive field is supplied the classifier backfill silently replaces the
malformed rating argument and add succeeds and persists. -/
theorem C7_counterexample :
    pyFloat? ("abc".toList) = none ∧
    (add []
      { emptyAddArgs with
          link := some ("example.com".toList)
          rating := some ("abc".toList) } none (some aiSample)
      ("T1".toList) ("T1".toList)).status = .ok ∧
    (add []
      { emptyAddArgs with
          link := some ("example.com".toList)
          rating := some ("abc".toList) } none (some aiSample)
      ("T1".toList) ("T1".toList)).saved = true := by
  decide

/-- Witness for the amended C7: an add with a name supplied and rating abc
aborts unsaved, and an edit with rating abc on a matching catalog aborts
unsaved with the catalog unchanged. -/
theorem C7_witness :
    ((add []
      { emptyAddArgs with
          link := some ("example.com".toList)
          name := some ("N".toList)
          rating := some ("abc".toList) } none none
      ("T1".toList) ("T1".toList)).saved = false ∧
      (add []
      { emptyAddArgs with
          link := some ("example.com".toList)
          name := some ("N".toList)
          rating := some ("abc".toList) } none none
      ("T1".toList) ("T1".toList)).data = [] ∧
      (add []
      { emptyAddArgs with
          link := some ("example.com".toList)
          name := some ("N".toList)
          rating := some ("abc".toList) } none none
      ("T1".toList) ("T1".toList)).status ≠ .ok) ∧
    ((edit [sampleEntry ("https://a.com".toList) ("a".toList)]
        { emptyEditArgs ("a.com".toList) with rating := some ("abc".toList) }
        ("T1".toList)).saved = false ∧
      (edit [sampleEntry ("https://a.com".toList) ("a".toList)]
        { emptyEditArgs ("a.com".toList) with rating := some ("abc".toList) }
        ("T1".toList)).data = [sampleEntry ("https://a.com".toList) ("a".toList)] ∧
      (edit [sampleEntry ("https://a.com".toList) ("a".toList)]
        { emptyEditArgs ("a.com".toList) with rating := some ("abc".toList) }
        ("T1".toList)).status ≠ .ok) :=
  ⟨C7_numeric_abort_no_persist.1 [] _ none none ("T1".toList) ("T1".toList)
      (by decide) (by decide) (Or.inl (by decide)),
   C7_numeric_abort_no_persist.2.2.1 [sampleEntry ("https://a.com".toList) ("a".toList)]
      _ ("T1".toList) (by decide) (by decide)⟩

end OLC

namespace OLC

/-- C9 counterexample: the claim as stated fails, because with no
descriptive field supplied the classifier backfill replaces the account
argument, and the value yes is stored as the classifier's boolean true
rather than as false. -/
theorem C9_counterexample :
    pyLower ("yes".toList) ≠ "true".toList ∧
    ((add []
      { emptyAddArgs with
          link := some ("example.com".toList)
          account := some ("yes".toList) } none (some aiSample)
      ("T1".toList) ("T1".toList)).data.getLast?).map Entry.requires_account
      = some true := by
  decide

/-- C9 (amended): for edit always, and for add whenever the classifier
backfill cannot have replaced the arguments, a supplied non-empty account or
api value is stored as true exactly when its lowercasing equals true, and
any other non-empty value is stored as false rather than rejected. -/
theorem C9_account_api_truthiness :
    (∀ e a now e2, applyEdit e a now = some e2 →
      (truthyS a.account = true →
        e2.requires_account = (pyLower (a.account.getD []) == "true".toList)) ∧
      (truthyS a.api = true →
        e2.api_available = (pyLower (a.api.getD []) == "true".toList))) ∧
    (∀ data args stdin ai nowC nowU,
      (truthyS args.name = true ∨ truthyS args.desc = true ∨
        truthyS args.type = true ∨ ai = none) →
      (add data args stdin ai nowC nowU).status = .ok →
      (truthyS args.account = true →
        ((add data args stdin ai nowC nowU).data.getLast?).map Entry.requires_account
          = some (pyLower (args.account.getD []) == "true".toList)) ∧
      (truthyS args.api = true →
        ((add data args stdin ai nowC nowU).data.getLast?).map Entry.api_available
          = some (pyLower (args.api.getD []) == "true".toList))) := by
  constructor
  · intro e a now e2 h
    simp only [applyEdit] at h
    rcases hr : (if truthyS a.rating then pyFloat? (a.rating.getD [])
        else some e.metrics.rating) with _ | rv <;>
      rcases hc : (if truthyS a.rating_count then pyInt? (a.rating_count.getD [])
        else some e.metrics.rating_count) with _ | cv <;>
      rw [hr, hc] at h
    · exact absurd h (by simp)
    · exact absurd h (by simp)
    · exact absurd h (by simp)
    · have he2 := Option.some.inj h
      subst he2
      constructor
      · intro hacc
        show (if truthyS a.account then pyLower (a.account.getD []) == "true".toList
          else e.requires_account) = _
        rw [if_pos hacc]
      · intro hapi
        show (if truthyS a.api then pyLower (a.api.getD []) == "true".toList
          else e.api_available) = _
        rw [if_pos hapi]
  · intro data args stdin ai nowC nowU hnb
    simp only [add]
    set L := (if !truthyS args.link then
        (match stdin with
         | some s => some (pyStrip s)
         | none => args.link)
      else args.link) with hLdef
    by_cases hL : truthyS L = false
    · rw [if_pos hL]
      intro hok
      exact absurd hok (by simp)
    · rw [if_neg hL]
      by_cases hdup : (data.any fun e =>
          extract_domain e.link == extract_domain (normalize_url (L.getD []))) = true
      · rw [if_pos hdup]
        intro hok
        exact absurd hok (by simp)
      · rw [if_neg hdup]
        rw [backfill_ite_proj AddArgs.account args ai L hnb,
          backfill_ite_proj AddArgs.api args ai L hnb]
        rcases hrv : (if truthyS (if truthyS L ∧ truthyS args.name = false ∧
            truthyS args.desc = false ∧ truthyS args.type = false then backfillOpt args ai
            else args).rating = true then
            pyFloat? ((if truthyS L ∧ truthyS args.name = false ∧
              truthyS args.desc = false ∧ truthyS args.type = false then backfillOpt args ai
              else args).rating.getD [])
          else some (PyFloat.finite 0)) with _ | rv
        · intro hok
          exact absurd hok (by simp)
        · rcases hcv : (if truthyS (if truthyS L ∧ truthyS args.name = false ∧
              truthyS args.desc = false ∧ truthyS args.type = false then backfillOpt args ai
              else args).rating_count = true then
              pyInt? ((if truthyS L ∧ truthyS args.name = false ∧
                truthyS args.desc = false ∧ truthyS args.type = false then backfillOpt args ai
                else args).rating_count.getD [])
            else some (0 : Int)) with _ | cv
          · intro hok
            exact absurd hok (by simp)
          · intro _
            constructor
            · intro hacc
              simp only [List.getLast?_concat, Option.map_some']
              rw [if_pos hacc]
            · intro hapi
              simp only [List.getLast?_concat, Option.map_some']
              rw [if_pos hapi]

/-- Witness for the amended C9: editing with account TRUE stores true, and
editing with api yes stores false. -/
theorem C9_witness :
    ({ sampleEntry ("https://a.com".toList) ("n".toList) with
        requires_account := true, date_updated := "T1".toList } : Entry).requires_account
      = true ∧
    ({ sampleEntry ("https://a.com".toList) ("n".toList) with
        api_available := false, date_updated := "T1".toList } : Entry).api_available
      = false := by
  constructor
  · have h := (C9_account_api_truthiness.1 (sampleEntry ("https://a.com".toList) ("n".toList))
      { emptyEditArgs ("a.com".toList) with account := some ("TRUE".toList) } ("T1".toList)
      ({ sampleEntry ("https://a.com".toList) ("n".toList) with
          requires_account := true, date_updated := "T1".toList }) (by decide)).1 (by decide)
    exact h.trans (by decide)
  · have h := (C9_account_api_truthiness.1 (sampleEntry ("https://a.com".toList) ("n".toList))
      { emptyEditArgs ("a.com".toList) with api := some ("yes".toList) } ("T1".toList)
      ({ sampleEntry ("https://a.com".toList) ("n".toList) with
          api_available := false, date_updated := "T1".toList }) (by decide)).2 (by decide)
    exact h.trans (by decide)

end OLC

namespace OLC

set_option maxRecDepth 100000 in
/-- C6: the storage round trip is broken.  The trailing-comma substitution
of load_data also fires inside string literals, so saving a well-formed
catalog whose description contains a comma directly before a closing
bracket, loading it back and saving again yields a different file: the
description silently loses its comma. -/
theorem C6_roundtrip_broken :
    save_data (load_data (some (save_data badCatalog))) ≠ save_data badCatalog := by
  decide

end OLC
